import Mathlib

/-
Verification of the onos-mlb mobility load balancing controller.

Shallow embedding of:
  - pkg/store/watcher/watcher.go : the watcher registry (AddWatcher,
    RemoveWatcher, Send), with the Go map of watchers modelled as an
    association list with unique keys (putMap overwrites an existing key,
    which is the Go map assignment semantics) and channel delivery modelled
    as the list of (channel, event) send operations performed.
  - pkg/controller/handler.go : the MLB control loop (Run, StartControlLogic,
    updateOcnStore, getTotalNumUEs, getCellList, controlLogicEachCell,
    getCapacity, numUE, findIDWithCGI).

Modelling conventions:
  - storage.Store (pkg/store/storage, external to the analysed sources) is
    modelled from the spec's contract as a key/value map: an association
    list keyed by cell identity.  The reference implementation is an
    in-memory store, so a Go map value obtained from Get aliases the stored
    value; an in-place mutation of such a map is therefore a store update
    and is modelled as a write-back (putMap) of the mutated map.
  - meastype.QOffsetRange (rrm-son-lib, external) is an integer enumeration
    of the 3GPP q-offset levels; QOffsetMinus24dB is its first (zero) value
    and QOffset24dB its last.  It is modelled by the underlying integers,
    QOffsetMinus24dB = 0, QOffset0dB = 15, QOffset24dB = 30.  The zero
    value QOffsetMinus24dB = 0 is also what a Go map access returns for a
    missing key, hence the .getD QOffsetMinus24dB in the decision loops.
  - getCapacity computes in Go float64:
      capacity = (1 - numUEs/(d*total)) * 100, returned as int (truncation
      toward zero).  At every call site the arguments make this arithmetic
    exact, and (1 - n/(d*t)) * 100 = ((d*t - n) * 100) / (d*t) as exact
    rationals, so it is modelled by truncated integer division (Int.tdiv).
  - monitor.Handler.Monitor (external) refreshes the measurement stores as
    a side effect; a tick is modelled as running on the post-monitor state.
  - channel sends (southbound SendControlMessage) are modelled by returning
    the list of messages sent, in order; a Go error return is modelled with
    an Option ErrKind alongside, so that sends performed before a failure
    are kept.
-/

namespace OnosMlb

/-- Association-list lookup, modelling a read of a Go map / the store. -/
def lookupMap {K V : Type} [DecidableEq K] : List (K × V) → K → Option V
  | [], _ => none
  | (k', v) :: rest, k => if k' = k then some v else lookupMap rest k

/-- Association-list update, modelling a Go map assignment / a store Put:
overwrites the entry if the key is present, appends it otherwise. -/
def putMap {K V : Type} [DecidableEq K] : List (K × V) → K → V → List (K × V)
  | [], k, v => [(k, v)]
  | (k', v') :: rest, k, v =>
    if k' = k then (k, v) :: rest else (k', v') :: putMap rest k v

/-- Events carried by the watcher mechanism are opaque; modelled as Nat. -/
abbrev Event := Nat

/-- Watcher ids (uuid.UUID); modelled as strings. -/
abbrev UUID := String

/-- A channel is identified by an opaque id; delivery on it is recorded as a
(channel id, event) pair. -/
abbrev ChanId := Nat

/-- Watcher struct of watcher.go: an id and a send-only channel. -/
structure Watcher where
  id : UUID
  ch : ChanId
deriving DecidableEq, Repr

/-- Watchers registry of watcher.go: the Go map from uuid to Watcher. -/
structure Watchers where
  watchers : List (UUID × Watcher)
deriving DecidableEq, Repr

/-- NewWatchers of watcher.go. -/
def NewWatchers : Watchers := ⟨[]⟩

/-- AddWatcher of watcher.go: ws.watchers[id] = Watcher{id, ch}. -/
def AddWatcher (ws : Watchers) (id : UUID) (ch : ChanId) : Watchers :=
  ⟨putMap ws.watchers id ⟨id, ch⟩⟩

/-- Send of watcher.go: for every registered watcher, watcher.ch <- event.
Returns the list of channel sends performed. -/
def Send (ws : Watchers) (e : Event) : List (ChanId × Event) :=
  ws.watchers.map (fun kv => (kv.2.ch, e))

/-- RemoveWatcher of watcher.go: builds a fresh map from the watchers whose
id differs from the removed one.  Note the source keys the new map by the
removed id (watchers[id] = watcher), exactly as written there. -/
def RemoveWatcher (ws : Watchers) (id : UUID) : Watchers :=
  ⟨ws.watchers.foldl
    (fun acc kv => if kv.2.id ≠ id then putMap acc id kv.2 else acc) []⟩

/-- storage.IDs: cell identity, equality is structural on all three fields. -/
structure IDs where
  plmnID : String
  cellID : String
  nodeID : String
deriving DecidableEq, Repr

/-- meastype.QOffsetMinus24dB, the first (zero) enumeration value. -/
def QOffsetMinus24dB : Int := 0

/-- meastype.QOffset0dB, the 0 dB enumeration value. -/
def QOffset0dB : Int := 15

/-- meastype.QOffset24dB, the last enumeration value. -/
def QOffset24dB : Int := 30

/-- handler.go: RcPreRanParamDefaultOCN = meastype.QOffset0dB. -/
def RcPreRanParamDefaultOCN : Int := QOffset0dB

/-- handler.go: OCNDeltaFactor = 3. -/
def OCNDeltaFactor : Int := 3

/-- storage.OcnMap value: map from neighbor identity to its OCN offset. -/
abbrev OcnMap := List (IDs × Int)

/-- The store contents a tick runs against (post-monitor): the UE-count
measurement store, the neighbor store and the OCN store.
Modelled from the spec: storage.Store is an external key/value store with
Get/Put/ListElements/ListKeys; each logical store is an association list. -/
structure State where
  numUEs : List (IDs × Int)
  neighbors : List (IDs × List IDs)
  ocn : List (IDs × OcnMap)
deriving DecidableEq, Repr

/-- handler configuration fields (interval, overloadThreshold,
targetThreshold) of the handler struct. -/
structure Config where
  interval : Int
  overloadThreshold : Int
  targetThreshold : Int
deriving DecidableEq, Repr

/-- One southbound control message:
SendControlMessage(ctx, nCellID, ids.NodeID, int32(ocn)). -/
structure CtrlMsg where
  targetCell : IDs
  servingNodeID : String
  ocnValue : Int
deriving DecidableEq, Repr

/-- Error kinds surfaced to the control loop; store misses and the
errors.NewNotFound of findIDWithCGI. -/
inductive ErrKind
  | notFound
deriving DecidableEq, Repr

/-- containsIDs of handler.go. -/
def containsIDs (ids : IDs) : List IDs → Bool
  | [] => false
  | e :: rest => if e = ids then true else containsIDs ids rest

/-- updateOcnStore, new-cell branch: build a Go map sending every neighbor
to RcPreRanParamDefaultOCN. -/
def mkDefaultOcnMap (neighborList : List IDs) : OcnMap :=
  neighborList.foldl (fun m n => putMap m n RcPreRanParamDefaultOCN) []

/-- updateOcnStore, existing-cell branch, first loop: delete every OcnMap
entry whose key is absent from the neighbor list. -/
def deleteRemovedNeighbors (m : OcnMap) (neighborList : List IDs) : OcnMap :=
  m.filter (fun kv => containsIDs kv.1 neighborList)

/-- updateOcnStore, existing-cell branch, second loop: add a default entry
for every neighbor not yet present in the OcnMap. -/
def addNewNeighbors (m : OcnMap) (neighborList : List IDs) : OcnMap :=
  neighborList.foldl
    (fun acc n =>
      if (lookupMap acc n).isSome then acc
      else putMap acc n RcPreRanParamDefaultOCN) m

/-- Body of updateOcnStore's loop over the neighbor store entries.  When the
OCN store has no entry for the cell, a fresh default map is Put; otherwise
the existing Go map is mutated in place (the mutation reaches the in-memory
store through aliasing, modelled as a write-back of the mutated map). -/
def updateOcnStep (ocnAcc : List (IDs × OcnMap)) (e : IDs × List IDs) :
    List (IDs × OcnMap) :=
  match lookupMap ocnAcc e.1 with
  | none => putMap ocnAcc e.1 (mkDefaultOcnMap e.2)
  | some m => putMap ocnAcc e.1 (addNewNeighbors (deleteRemovedNeighbors m e.2) e.2)

/-- updateOcnStore of handler.go: reconcile the OCN store against every
(cell, neighborList) entry of the neighbor store. -/
def updateOcnStore (st : State) : State :=
  { st with ocn := st.neighbors.foldl updateOcnStep st.ocn }

/-- getTotalNumUEs of handler.go: sum of all UE-count measurements. -/
def getTotalNumUEs (st : State) : Int :=
  st.numUEs.foldl (fun acc e => acc + e.2) 0

/-- getCellList of handler.go: the keys of the UE-count store. -/
def getCellList (st : State) : List IDs :=
  st.numUEs.map Prod.fst

/-- findIDWithCGI of handler.go: first cell matching plmnid and cell id;
errors.NewNotFound when absent. -/
def findIDWithCGI (plmnid : String) (cid : String) (cells : List IDs) :
    Option IDs :=
  cells.find? (fun cell => cell.plmnID == plmnid && cell.cellID == cid)

/-- numUE of handler.go: resolve the cell identity, then read its UE count;
the Go version returns (0, err) on failure, modelled as Except. -/
def numUE (st : State) (plmnID : String) (cid : String) (cells : List IDs) :
    Except ErrKind Int :=
  match findIDWithCGI plmnID cid cells with
  | none => .error .notFound
  | some storageID =>
    match lookupMap st.numUEs storageID with
    | none => .error .notFound
    | some v => .ok v

/-- getCapacity of handler.go:
int((1 - float64(numUEs)/(denominationFactor*float64(totalNumUEs))) * 100),
in exact arithmetic: ((d*t - n) * 100) / (d*t) truncated toward zero.
When d*t = 0 the Go float division yields NaN or an infinity and the int
conversion is unspecified; no theorem below depends on the value returned
in that case (Int.tdiv then returns 0). -/
def getCapacity (denominationFactor : Int) (totalNumUEs : Int) (numUEs : Int) :
    Int :=
  Int.tdiv ((denominationFactor * totalNumUEs - numUEs) * 100)
    (denominationFactor * totalNumUEs)

/-- Output of a decision loop: the control messages sent (in order), the
(totalNumUEs, numUEs) argument pairs getCapacity was invoked with, and the
error returned, if any.  Sends performed before an error are kept. -/
structure LoopOut where
  msgs : List CtrlMsg
  capCalls : List (Int × Int)
  err : Option ErrKind
deriving DecidableEq, Repr

/-- Offload branch of controlLogicEachCell (load test already passed): for
every neighbor, read the cell's OcnMap from the OCN store, step the
neighbor's OCN down by OCNDeltaFactor clamping at QOffsetMinus24dB, and
send it.  A missing map key yields the Go zero value QOffsetMinus24dB. -/
def reduceOcnLoop (st : State) (ids : IDs) : List IDs → LoopOut
  | [] => ⟨[], [], none⟩
  | nCellID :: rest =>
    match lookupMap st.ocn ids with
    | none => ⟨[], [], some .notFound⟩
    | some ocnMap =>
      let ocn0 := (lookupMap ocnMap nCellID).getD QOffsetMinus24dB
      let ocn := if ocn0 - OCNDeltaFactor < QOffsetMinus24dB then QOffsetMinus24dB
        else ocn0 - OCNDeltaFactor
      let out := reduceOcnLoop st ids rest
      ⟨⟨nCellID, ids.nodeID, ocn⟩ :: out.msgs, out.capCalls, out.err⟩

/-- Lines 224-228 of handler.go: numUEsNCell, err := h.numUE(...); a failed
lookup is only logged (set num(UEs) to 0) and the Go zero return value 0 is
used. -/
def numUEOrZero (st : State) (n : IDs) (cells : List IDs) : Int :=
  match numUE st n.plmnID n.cellID cells with
  | .error _ => 0
  | .ok v => v

/-- Overload branch of controlLogicEachCell (overload test already passed):
for every neighbor, read its UE count (0 when the measurement is missing,
which is only logged), compute its capacity, and when 1 - capacity is under
the target threshold, step the neighbor's OCN up by OCNDeltaFactor and send
it.  The clamping test is the one written in the source: the stepped value
is compared against QOffsetMinus24dB, and the clamp assigns QOffset24dB. -/
def increaseOcnLoop (cfg : Config) (st : State) (ids : IDs) (cells : List IDs)
    (totalNumUEs : Int) : List IDs → LoopOut
  | [] => ⟨[], [], none⟩
  | nCellID :: rest =>
    let numUEsNCell := numUEOrZero st nCellID cells
    let capNCell := getCapacity 1 totalNumUEs numUEsNCell
    if 1 - capNCell < cfg.targetThreshold then
      match lookupMap st.ocn ids with
      | none => ⟨[], [(totalNumUEs, numUEsNCell)], some .notFound⟩
      | some ocnMap =>
        let ocn0 := (lookupMap ocnMap nCellID).getD QOffsetMinus24dB
        let ocn := if ocn0 + OCNDeltaFactor > QOffsetMinus24dB then QOffset24dB
          else ocn0 + OCNDeltaFactor
        let out := increaseOcnLoop cfg st ids cells totalNumUEs rest
        ⟨⟨nCellID, ids.nodeID, ocn⟩ :: out.msgs,
          (totalNumUEs, numUEsNCell) :: out.capCalls, out.err⟩
    else
      let out := increaseOcnLoop cfg st ids cells totalNumUEs rest
      ⟨out.msgs, (totalNumUEs, numUEsNCell) :: out.capCalls, out.err⟩

/-- controlLogicEachCell of handler.go: look up the serving cell's neighbor
list and UE count, compute its capacity, and run the offload branch when
1 - capacity < targetThreshold and the overload branch when
1 - capacity > overloadThreshold.  No write to the OCN store occurs here:
the source only reads the map and sends messages. -/
def controlLogicEachCell (cfg : Config) (st : State) (ids : IDs)
    (cells : List IDs) (totalNumUEs : Int) : LoopOut :=
  match lookupMap st.neighbors ids with
  | none => ⟨[], [], some .notFound⟩
  | some neighborList =>
    match numUE st ids.plmnID ids.cellID cells with
    | .error e => ⟨[], [], some e⟩
    | .ok numUEsSCell =>
      let capSCell := getCapacity 1 totalNumUEs numUEsSCell
      let out1 := if 1 - capSCell < cfg.targetThreshold
        then reduceOcnLoop st ids neighborList else ⟨[], [], none⟩
      match out1.err with
      | some e => ⟨out1.msgs, (totalNumUEs, numUEsSCell) :: out1.capCalls, some e⟩
      | none =>
        if 1 - capSCell > cfg.overloadThreshold then
          let out2 := increaseOcnLoop cfg st ids cells totalNumUEs neighborList
          ⟨out1.msgs ++ out2.msgs,
            (totalNumUEs, numUEsSCell) :: (out1.capCalls ++ out2.capCalls),
            out2.err⟩
        else ⟨out1.msgs, (totalNumUEs, numUEsSCell) :: out1.capCalls, none⟩

/-- StartControlLogic's loop over the cell list: run the per-cell decision
for each cell, aborting (but keeping the sends already made) on error. -/
def controlLoopCells (cfg : Config) (st : State) (cells : List IDs)
    (totalNumUEs : Int) : List IDs → LoopOut
  | [] => ⟨[], [], none⟩
  | cell :: rest =>
    let out := controlLogicEachCell cfg st cell cells totalNumUEs
    match out.err with
    | some e => ⟨out.msgs, out.capCalls, some e⟩
    | none =>
      let outRest := controlLoopCells cfg st cells totalNumUEs rest
      ⟨out.msgs ++ outRest.msgs, out.capCalls ++ outRest.capCalls, outRest.err⟩

/-- Result of one tick: the state after the reconciliation step (decisions
perform no store writes), the messages sent, the getCapacity calls made,
and the first error hit, if any. -/
structure TickResult where
  state : State
  msgs : List CtrlMsg
  capCalls : List (Int × Int)
  err : Option ErrKind
deriving DecidableEq, Repr

/-- StartControlLogic of handler.go, on the post-monitor state: reconcile
the OCN store, get the total UE count and the cell list, then run the
per-cell decision over every cell. -/
def startControlLogic (cfg : Config) (st : State) : TickResult :=
  let st1 := updateOcnStore st
  let totalNumUEs := getTotalNumUEs st1
  let cells := getCellList st1
  let out := controlLoopCells cfg st1 cells totalNumUEs cells
  ⟨st1, out.msgs, out.capCalls, out.err⟩

/-- One outcome of the select in Run: the timer fired, or ctx.Done. -/
inductive SelectEvent
  | timerFired
  | ctxDone
deriving DecidableEq, Repr

/-- Observable status of Run after consuming a list of select outcomes:
still looping (pending) or returned, with the error value returned and the
number of ticks started either way. -/
inductive RunState
  | pending (ticksStarted : Nat)
  | returned (err : Option ErrKind) (ticksStarted : Nat)
deriving DecidableEq, Repr

/-- Run of handler.go over a sequence of select outcomes: each timer fire
starts one tick (StartControlLogic) and loops; observing ctx.Done returns
nil immediately. -/
def run : List SelectEvent → RunState
  | [] => .pending 0
  | .timerFired :: rest =>
    match run rest with
    | .pending n => .pending (n + 1)
    | .returned e n => .returned e (n + 1)
  | .ctxDone :: _ => .returned none 0

/-- Number of timer fires strictly before the first ctx.Done outcome. -/
def ticksBeforeCancel : List SelectEvent → Nat
  | [] => 0
  | .timerFired :: rest => ticksBeforeCancel rest + 1
  | .ctxDone :: _ => 0

/-- Concrete cell A for the counterexample states. -/
def cellA : IDs := ⟨"plmn", "A", "nodeA"⟩

/-- Concrete cell B for the counterexample states. -/
def cellB : IDs := ⟨"plmn", "B", "nodeB"⟩

/-- Thresholds of the spec's end-to-end scenario: overload 60, target 40. -/
def cfgMid : Config := ⟨0, 60, 40⟩

/-- Two cells with 100 UEs each (capacity 50, load 50), mutual neighbors,
OCN store already reconciled to the default offset. -/
def stMid : State :=
  ⟨[(cellA, 100), (cellB, 100)],
   [(cellA, [cellB]), (cellB, [cellA])],
   [(cellA, [(cellB, QOffset0dB)]), (cellB, [(cellA, QOffset0dB)])]⟩

/-- Same cells and measurements as stMid, with an empty OCN store, so that
the first tick's reconciliation creates the default entries. -/
def stMid0 : State :=
  ⟨[(cellA, 100), (cellB, 100)],
   [(cellA, [cellB]), (cellB, [cellA])],
   []⟩

/-- Thresholds making the source's overload branch reachable:
overload threshold 0, target threshold 1. -/
def cfgOver : Config := ⟨0, 0, 1⟩

/-- Cell A carries all 200 UEs (capacity 0), neighbor B carries none
(capacity 100); OCN store at the default offset. -/
def stOver : State :=
  ⟨[(cellA, 200), (cellB, 0)],
   [(cellA, [cellB]), (cellB, [cellA])],
   [(cellA, [(cellB, QOffset0dB)]), (cellB, [(cellA, QOffset0dB)])]⟩

/-- Three watchers a, b, c on channels 1, 2, 3. -/
def wsThree : Watchers :=
  AddWatcher (AddWatcher (AddWatcher NewWatchers "a" 1) "b" 2) "c" 3

theorem lookupMap_putMap_self {K V : Type} [DecidableEq K]
    (l : List (K × V)) (k : K) (v : V) :
    lookupMap (putMap l k v) k = some v := by
  induction l with
  | nil => simp [putMap, lookupMap]
  | cons kv rest ih =>
    obtain ⟨a, b⟩ := kv
    by_cases h : a = k
    · simp [putMap, h, lookupMap]
    · simp [putMap, h, lookupMap, ih]

theorem lookupMap_putMap_ne {K V : Type} [DecidableEq K]
    (l : List (K × V)) (k k' : K) (v : V) (h : k ≠ k') :
    lookupMap (putMap l k v) k' = lookupMap l k' := by
  induction l with
  | nil => simp [putMap, lookupMap, h]
  | cons kv rest ih =>
    obtain ⟨a, b⟩ := kv
    by_cases ha : a = k
    · simp [putMap, ha, lookupMap, h]
    · simp [putMap, ha, lookupMap, ih]

theorem lookupMap_foldl_putDefault (nl : List IDs) (acc : OcnMap) (n : IDs) :
    lookupMap (nl.foldl (fun m x => putMap m x RcPreRanParamDefaultOCN) acc) n =
      if containsIDs n nl then some RcPreRanParamDefaultOCN else lookupMap acc n := by
  induction nl generalizing acc with
  | nil => simp [containsIDs]
  | cons x rest ih =>
    rw [List.foldl_cons, ih]
    by_cases hx : x = n
    · subst hx
      cases hc : containsIDs x rest
      · simp [containsIDs, hc, lookupMap_putMap_self]
      · simp [containsIDs, hc]
    · cases hc : containsIDs n rest
      · simp [containsIDs, hx, hc, lookupMap_putMap_ne _ _ _ _ hx]
      · simp [containsIDs, hx, hc]

theorem lookupMap_mkDefaultOcnMap (nl : List IDs) (n : IDs) :
    lookupMap (mkDefaultOcnMap nl) n =
      if containsIDs n nl then some RcPreRanParamDefaultOCN else none := by
  simpa [lookupMap] using lookupMap_foldl_putDefault nl [] n

theorem lookupMap_deleteRemovedNeighbors (m : OcnMap) (nl : List IDs) (n : IDs) :
    lookupMap (deleteRemovedNeighbors m nl) n =
      if containsIDs n nl then lookupMap m n else none := by
  induction m with
  | nil => simp [deleteRemovedNeighbors, lookupMap]
  | cons kv rest ih =>
    obtain ⟨k, v⟩ := kv
    simp only [deleteRemovedNeighbors] at ih ⊢
    rw [List.filter_cons]
    by_cases hk : k = n
    · subst hk
      cases hc : containsIDs k nl
      · simp [hc, ih]
      · simp [hc, lookupMap]
    · cases hc : containsIDs k nl
      · simp [hc, ih, lookupMap, hk]
      · simp [hc, ih, lookupMap, hk]

theorem lookupMap_addNewNeighbors (m : OcnMap) (nl : List IDs) (n : IDs) :
    lookupMap (addNewNeighbors m nl) n =
      if (lookupMap m n).isSome then lookupMap m n
      else if containsIDs n nl then some RcPreRanParamDefaultOCN else none := by
  induction nl generalizing m with
  | nil =>
    cases h : lookupMap m n <;> simp [addNewNeighbors, containsIDs, h]
  | cons x rest ih =>
    show lookupMap (addNewNeighbors
      (if (lookupMap m x).isSome then m else putMap m x RcPreRanParamDefaultOCN) rest) n = _
    by_cases hx : (lookupMap m x).isSome
    · rw [if_pos hx, ih]
      by_cases hmn : (lookupMap m n).isSome
      · rw [if_pos hmn, if_pos hmn]
      · rw [if_neg hmn, if_neg hmn]
        have hxn : x ≠ n := by
          intro he
          rw [he] at hx
          exact hmn hx
        have hcont : containsIDs n (x :: rest) = containsIDs n rest := by
          show (if x = n then true else containsIDs n rest) = _
          rw [if_neg hxn]
        rw [hcont]
    · rw [if_neg hx, ih]
      have hnone : lookupMap m x = none := by
        cases h : lookupMap m x
        · rfl
        · rw [h] at hx; simp at hx
      by_cases hxn : x = n
      · subst hxn
        rw [lookupMap_putMap_self, hnone]
        have hcont : containsIDs x (x :: rest) = true := by
          show (if x = x then true else containsIDs x rest) = true
          rw [if_pos rfl]
        rw [hcont]
        simp
      · rw [lookupMap_putMap_ne _ _ _ _ hxn]
        have hcont : containsIDs n (x :: rest) = containsIDs n rest := by
          show (if x = n then true else containsIDs n rest) = _
          rw [if_neg hxn]
        rw [hcont]

theorem lookupMap_updateOcnStep_self (acc : List (IDs × OcnMap)) (c : IDs)
    (nl : List IDs) :
    lookupMap (updateOcnStep acc (c, nl)) c =
      some (match lookupMap acc c with
        | none => mkDefaultOcnMap nl
        | some m => addNewNeighbors (deleteRemovedNeighbors m nl) nl) := by
  unfold updateOcnStep
  cases h : lookupMap acc c <;> simp [h, lookupMap_putMap_self]

theorem lookupMap_updateOcnStep_ne (acc : List (IDs × OcnMap))
    (e : IDs × List IDs) (c : IDs) (h : e.1 ≠ c) :
    lookupMap (updateOcnStep acc e) c = lookupMap acc c := by
  unfold updateOcnStep
  cases hl : lookupMap acc e.1 <;> simp [lookupMap_putMap_ne _ _ _ _ h]

theorem lookupMap_foldl_updateOcnStep_ne (l : List (IDs × List IDs))
    (acc : List (IDs × OcnMap)) (c : IDs) (h : ∀ e ∈ l, e.1 ≠ c) :
    lookupMap (l.foldl updateOcnStep acc) c = lookupMap acc c := by
  induction l generalizing acc with
  | nil => rfl
  | cons e rest ih =>
    rw [List.foldl_cons, ih _ (fun x hx => h x (List.mem_cons_of_mem _ hx)),
      lookupMap_updateOcnStep_ne _ _ _ (h e (List.mem_cons_self _ _))]

theorem lookupMap_eq_some_split {K V : Type} [DecidableEq K]
    (l : List (K × V)) (k : K) (v : V) (h : lookupMap l k = some v) :
    ∃ l₁ l₂, l = l₁ ++ (k, v) :: l₂ ∧ ∀ e ∈ l₁, e.1 ≠ k := by
  induction l with
  | nil => simp [lookupMap] at h
  | cons kv rest ih =>
    obtain ⟨a, b⟩ := kv
    by_cases ha : a = k
    · subst ha
      rw [lookupMap, if_pos rfl] at h
      obtain rfl : b = v := by injection h
      exact ⟨[], rest, rfl, by simp⟩
    · rw [lookupMap, if_neg ha] at h
      obtain ⟨l₁, l₂, heq, hne⟩ := ih h
      refine ⟨(a, b) :: l₁, l₂, by rw [heq]; rfl, ?_⟩
      intro e he
      rcases List.mem_cons.mp he with rfl | he'
      · exact ha
      · exact hne e he'

theorem nodup_keys_tail_ne {K V : Type} (l₁ l₂ : List (K × V)) (k : K) (v : V)
    (h : ((l₁ ++ (k, v) :: l₂).map Prod.fst).Nodup) : ∀ e ∈ l₂, e.1 ≠ k := by
  intro e he hek
  have hsuffix : (k :: l₂.map Prod.fst) <:+ ((l₁ ++ (k, v) :: l₂).map Prod.fst) := by
    refine ⟨l₁.map Prod.fst, ?_⟩
    simp
  have hnd : (k :: l₂.map Prod.fst).Nodup := h.sublist hsuffix.sublist
  exact (List.nodup_cons.mp hnd).1 (hek ▸ List.mem_map_of_mem Prod.fst he)

/-- C4: after the reconciliation step of a tick, every cell present in the
neighbor store has an OCN-store entry whose key set is exactly its neighbor
list, and every key that was not present before the reconciliation maps to
the default offset RcPreRanParamDefaultOCN. -/
theorem C4_reconciliation_closure (st : State) (c : IDs) (nl : List IDs)
    (hnodup : (st.neighbors.map Prod.fst).Nodup)
    (hc : lookupMap st.neighbors c = some nl) :
    ∃ m', lookupMap (updateOcnStore st).ocn c = some m' ∧
      (∀ n, (lookupMap m' n).isSome = containsIDs n nl) ∧
      (∀ n, containsIDs n nl = true →
        lookupMap ((lookupMap st.ocn c).getD []) n = none →
        lookupMap m' n = some RcPreRanParamDefaultOCN) := by
  obtain ⟨l₁, l₂, hsplit, hl₁⟩ := lookupMap_eq_some_split _ _ _ hc
  have hl₂ : ∀ e ∈ l₂, e.1 ≠ c := by
    rw [hsplit] at hnodup
    exact nodup_keys_tail_ne _ _ _ _ hnodup
  have hacc : lookupMap (l₁.foldl updateOcnStep st.ocn) c = lookupMap st.ocn c :=
    lookupMap_foldl_updateOcnStep_ne l₁ _ c hl₁
  have hfold : lookupMap (updateOcnStore st).ocn c =
      lookupMap (updateOcnStep (l₁.foldl updateOcnStep st.ocn) (c, nl)) c := by
    show lookupMap (st.neighbors.foldl updateOcnStep st.ocn) c = _
    rw [hsplit, List.foldl_append, List.foldl_cons]
    exact lookupMap_foldl_updateOcnStep_ne l₂ _ c hl₂
  rw [lookupMap_updateOcnStep_self, hacc] at hfold
  cases hold : lookupMap st.ocn c with
  | none =>
    rw [hold] at hfold
    refine ⟨mkDefaultOcnMap nl, hfold, ?_, ?_⟩
    · intro n
      rw [lookupMap_mkDefaultOcnMap]
      cases containsIDs n nl <;> simp
    · intro n hcn _
      rw [lookupMap_mkDefaultOcnMap, if_pos hcn]
  | some m =>
    rw [hold] at hfold
    refine ⟨addNewNeighbors (deleteRemovedNeighbors m nl) nl, hfold, ?_, ?_⟩
    · intro n
      rw [lookupMap_addNewNeighbors, lookupMap_deleteRemovedNeighbors]
      cases hcn : containsIDs n nl
      · simp
      · cases h : lookupMap m n <;> simp [h]
    · intro n hcn hmiss
      simp only [Option.getD_some] at hmiss
      rw [lookupMap_addNewNeighbors, lookupMap_deleteRemovedNeighbors, if_pos hcn,
        hmiss]
      simp [hcn]

theorem C4_reconciliation_closure_witness :
    ∃ m', lookupMap (updateOcnStore ⟨[], [(cellA, [cellB])], []⟩).ocn cellA = some m' ∧
      (∀ n, (lookupMap m' n).isSome = containsIDs n [cellB]) ∧
      (∀ n, containsIDs n [cellB] = true →
        lookupMap ((lookupMap (⟨[], [(cellA, [cellB])], []⟩ : State).ocn cellA).getD []) n
          = none →
        lookupMap m' n = some RcPreRanParamDefaultOCN) :=
  C4_reconciliation_closure ⟨[], [(cellA, [cellB])], []⟩ cellA [cellB]
    (by decide) (by decide)

/-- C1: with capacity(S) = 50 (100 UEs of 200) and targetThreshold = 40,
load(S) = 100 - capacity(S) = 50 is not below the threshold, so by the
claim the offload rule must not fire; the code nevertheless fires it
(it compares 1 - capacity, not 100 - capacity, with the threshold) and
sends the reduced offset 12 for neighbor B. -/
theorem C1_offload_condition_diverges :
    100 - getCapacity 1 200 100 = 50 ∧
    ¬(100 - getCapacity 1 200 100 < cfgMid.targetThreshold) ∧
    (controlLogicEachCell cfgMid stMid cellA (getCellList stMid)
      (getTotalNumUEs stMid)).msgs = [⟨cellB, "nodeA", 12⟩] := by decide

/-- C2: serving cell A is overloaded (load 100 > overloadThreshold 0) and
neighbor B has spare capacity (load 0 < targetThreshold 1); B's OCN is the
default QOffset0dB and QOffset0dB + OCNDeltaFactor = 18 does not exceed
QOffset24dB = 30, so by the claim the sent value must be 18; the code sends
QOffset24dB instead (its clamp test compares the stepped value against
QOffsetMinus24dB rather than QOffset24dB, which succeeds for every
in-range OCN). -/
theorem C2_increase_clamp_diverges :
    100 - getCapacity 1 200 200 > cfgOver.overloadThreshold ∧
    100 - getCapacity 1 200 0 < cfgOver.targetThreshold ∧
    QOffset0dB + OCNDeltaFactor ≤ QOffset24dB ∧
    QOffset0dB + OCNDeltaFactor ≠ QOffset24dB ∧
    (controlLogicEachCell cfgOver stOver cellA (getCellList stOver)
      (getTotalNumUEs stOver)).msgs = [⟨cellB, "nodeA", QOffset24dB⟩] := by decide

/-- C3: starting from an empty OCN store, the first tick reconciles the
store to the default offset QOffset0dB and the offload rule sends the
stepped value 12 for the pair (A, B); but the OCN store entry still holds
the default after the tick, and a second tick sends 12 again instead of
stepping from the previously sent value: the decision rules never write the
stepped offset back to the store. -/
theorem C3_no_ocn_writeback :
    (startControlLogic cfgMid stMid0).msgs =
      [⟨cellB, "nodeA", 12⟩, ⟨cellA, "nodeB", 12⟩] ∧
    lookupMap ((lookupMap (startControlLogic cfgMid stMid0).state.ocn cellA).getD [])
      cellB = some QOffset0dB ∧
    (startControlLogic cfgMid (startControlLogic cfgMid stMid0).state).msgs =
      (startControlLogic cfgMid stMid0).msgs ∧
    lookupMap ((lookupMap (startControlLogic cfgMid
      (startControlLogic cfgMid stMid0).state).state.ocn cellA).getD [])
      cellB = some QOffset0dB := by decide

/-- C5: with three watchers a, b, c on channels 1, 2, 3, RemoveWatcher "a"
must leave b and c registered; instead the source keys every retained
watcher under the removed id, so b is overwritten by c and a subsequent
Send delivers only to channel 3, never to b's channel 2. -/
theorem C5_remove_watcher_drops_others :
    Send (RemoveWatcher wsThree "a") 7 = [(3, 7)] ∧
    ((2, 7) : ChanId × Event) ∉ Send (RemoveWatcher wsThree "a") 7 ∧
    lookupMap (RemoveWatcher wsThree "a").watchers "b" = none := by decide

theorem reduceOcnLoop_msgs (st : State) (ids : IDs) (m : OcnMap)
    (hm : lookupMap st.ocn ids = some m) (nl : List IDs) :
    (reduceOcnLoop st ids nl).msgs = nl.map (fun x =>
      ⟨x, ids.nodeID,
        if (lookupMap m x).getD QOffsetMinus24dB - OCNDeltaFactor < QOffsetMinus24dB
        then QOffsetMinus24dB
        else (lookupMap m x).getD QOffsetMinus24dB - OCNDeltaFactor⟩) := by
  induction nl with
  | nil => rfl
  | cons x rest ih =>
    simp only [reduceOcnLoop, hm, List.map_cons]
    rw [← ih]

/-- C7: every message the offload rule sends for a neighbor whose OCN entry
holds ocn0 carries ocn0 stepped down by OCNDeltaFactor when that stays at
or above QOffsetMinus24dB, and QOffsetMinus24dB otherwise, and is never
below QOffsetMinus24dB; such a message is sent whenever the neighbor is in
the neighbor list. -/
theorem C7_offload_step_clamped (st : State) (ids : IDs) (nl : List IDs)
    (n : IDs) (m : OcnMap) (ocn0 : Int)
    (hm : lookupMap st.ocn ids = some m) (hn : lookupMap m n = some ocn0) :
    (n ∈ nl → ∃ msg ∈ (reduceOcnLoop st ids nl).msgs, msg.targetCell = n) ∧
    (∀ msg ∈ (reduceOcnLoop st ids nl).msgs, msg.targetCell = n →
      (QOffsetMinus24dB ≤ ocn0 - OCNDeltaFactor → msg.ocnValue = ocn0 - OCNDeltaFactor) ∧
      (ocn0 - OCNDeltaFactor < QOffsetMinus24dB → msg.ocnValue = QOffsetMinus24dB) ∧
      QOffsetMinus24dB ≤ msg.ocnValue) := by
  rw [reduceOcnLoop_msgs st ids m hm]
  constructor
  · intro hmem
    exact ⟨_, List.mem_map_of_mem _ hmem, rfl⟩
  · intro msg hmsg ht
    obtain ⟨x, hx, rfl⟩ := List.mem_map.mp hmsg
    have hxn : x = n := ht
    subst hxn
    have hval : (lookupMap m x).getD QOffsetMinus24dB = ocn0 := by rw [hn]; rfl
    refine ⟨fun hge => ?_, fun hlt => ?_, ?_⟩
    · show (if (lookupMap m x).getD QOffsetMinus24dB - OCNDeltaFactor < QOffsetMinus24dB
        then QOffsetMinus24dB
        else (lookupMap m x).getD QOffsetMinus24dB - OCNDeltaFactor) = ocn0 - OCNDeltaFactor
      rw [hval, if_neg (not_lt.mpr hge)]
    · show (if (lookupMap m x).getD QOffsetMinus24dB - OCNDeltaFactor < QOffsetMinus24dB
        then QOffsetMinus24dB
        else (lookupMap m x).getD QOffsetMinus24dB - OCNDeltaFactor) = QOffsetMinus24dB
      rw [hval, if_pos hlt]
    · show QOffsetMinus24dB ≤
        (if (lookupMap m x).getD QOffsetMinus24dB - OCNDeltaFactor < QOffsetMinus24dB
          then QOffsetMinus24dB
          else (lookupMap m x).getD QOffsetMinus24dB - OCNDeltaFactor)
      rw [hval]
      by_cases hlt : ocn0 - OCNDeltaFactor < QOffsetMinus24dB
      · rw [if_pos hlt]
      · rw [if_neg hlt]
        exact not_lt.mp hlt

theorem C7_offload_step_clamped_witness :
    (cellB ∈ [cellB] →
      ∃ msg ∈ (reduceOcnLoop stMid cellA [cellB]).msgs, msg.targetCell = cellB) ∧
    (∀ msg ∈ (reduceOcnLoop stMid cellA [cellB]).msgs, msg.targetCell = cellB →
      (QOffsetMinus24dB ≤ QOffset0dB - OCNDeltaFactor →
        msg.ocnValue = QOffset0dB - OCNDeltaFactor) ∧
      (QOffset0dB - OCNDeltaFactor < QOffsetMinus24dB →
        msg.ocnValue = QOffsetMinus24dB) ∧
      QOffsetMinus24dB ≤ msg.ocnValue) :=
  C7_offload_step_clamped stMid cellA [cellB] cellB [(cellB, QOffset0dB)] QOffset0dB
    (by decide) (by decide)

theorem increaseOcnLoop_capCalls (cfg : Config) (st : State) (ids : IDs)
    (cells : List IDs) (total : Int) (nl : List IDs) (m : OcnMap)
    (hm : lookupMap st.ocn ids = some m) :
    (increaseOcnLoop cfg st ids cells total nl).err = none ∧
    (increaseOcnLoop cfg st ids cells total nl).capCalls =
      nl.map (fun x => (total, numUEOrZero st x cells)) := by
  induction nl with
  | nil => exact ⟨rfl, rfl⟩
  | cons x rest ih =>
    simp only [increaseOcnLoop, hm, List.map_cons]
    by_cases hcond :
        1 - getCapacity 1 total (numUEOrZero st x cells) < cfg.targetThreshold
    · simp [hcond, ih.1, ih.2]
    · simp [hcond, ih.1, ih.2]

/-- C6: a neighbor whose UE-count lookup fails never aborts the per-cell
decision: the overload branch returns no error whatever the neighbor list
contains, and for each such neighbor the capacity test is performed with a
UE count of 0. -/
theorem C6_missing_measurement_resilience (cfg : Config) (st : State)
    (ids : IDs) (cells : List IDs) (total : Int) (nl : List IDs) (m : OcnMap)
    (hm : lookupMap st.ocn ids = some m) :
    (increaseOcnLoop cfg st ids cells total nl).err = none ∧
    (∀ n ∈ nl, numUE st n.plmnID n.cellID cells = .error .notFound →
      (total, 0) ∈ (increaseOcnLoop cfg st ids cells total nl).capCalls) := by
  obtain ⟨herr, hcap⟩ := increaseOcnLoop_capCalls cfg st ids cells total nl m hm
  refine ⟨herr, ?_⟩
  intro n hn hne
  rw [hcap]
  have h0 : numUEOrZero st n cells = 0 := by
    unfold numUEOrZero
    rw [hne]
  have heq : ((total, 0) : Int × Int) = (total, numUEOrZero st n cells) := by
    rw [h0]
  rw [heq]
  exact List.mem_map_of_mem _ hn

theorem C6_missing_measurement_resilience_witness :
    (increaseOcnLoop cfgOver stOver cellA [cellA] 200 [cellB]).err = none ∧
    (∀ n ∈ [cellB], numUE stOver n.plmnID n.cellID [cellA] = .error .notFound →
      ((200 : Int), (0 : Int)) ∈
        (increaseOcnLoop cfgOver stOver cellA [cellA] 200 [cellB]).capCalls) :=
  C6_missing_measurement_resilience cfgOver stOver cellA [cellA] 200 [cellB]
    [(cellB, QOffset0dB)] (by decide)

theorem count_send_channels (l : List (UUID × Watcher)) (e : Event) (c : ChanId) :
    (l.map (fun kv => (kv.2.ch, e))).count (c, e) =
      (l.map (fun kv => kv.2.ch)).count c := by
  induction l with
  | nil => rfl
  | cons kv rest ih =>
    simp only [List.map_cons, List.count_cons, ih]
    by_cases h : kv.2.ch = c
    · simp [h]
    · simp [h, Prod.ext_iff]

/-- C8: Send delivers the event exactly once to the channel of each
registered watcher and to no other channel: there is one delivery per
registered watcher, each registered watcher's channel receives the event,
every delivery carries the event to some registered watcher's channel, and
per channel the number of deliveries equals the number of registered
watchers using that channel. -/
theorem C8_send_exactly_once (ws : Watchers) (e : Event) :
    (Send ws e).length = ws.watchers.length ∧
    (∀ kv ∈ ws.watchers, ((kv.2.ch, e) : ChanId × Event) ∈ Send ws e) ∧
    (∀ d ∈ Send ws e, d.2 = e ∧ ∃ kv ∈ ws.watchers, d.1 = kv.2.ch) ∧
    (∀ c : ChanId, (Send ws e).count (c, e) =
      (ws.watchers.map (fun kv => kv.2.ch)).count c) := by
  refine ⟨by simp [Send], ?_, ?_, fun c => count_send_channels ws.watchers e c⟩
  · intro kv hkv
    exact List.mem_map_of_mem _ hkv
  · intro d hd
    obtain ⟨kv, hkv, rfl⟩ := List.mem_map.mp hd
    exact ⟨rfl, kv, hkv, rfl⟩

theorem C8_send_exactly_once_witness :
    (((2 : ChanId), (7 : Event)) : ChanId × Event) ∈ Send wsThree 7 :=
  (C8_send_exactly_once wsThree 7).2.1 ("b", ⟨"b", 2⟩) (by decide)

/-- C9: Run only returns once ctx.Done is observed, in which case it
returns nil having started exactly the ticks whose timer fired strictly
before cancellation; with no cancellation it keeps looping, one tick per
timer fire. -/
theorem C9_run_cancels_cleanly (evs : List SelectEvent) :
    (SelectEvent.ctxDone ∈ evs →
      run evs = .returned none (ticksBeforeCancel evs)) ∧
    (SelectEvent.ctxDone ∉ evs → run evs = .pending evs.length) := by
  induction evs with
  | nil =>
    constructor
    · intro h; simp at h
    · intro _; rfl
  | cons ev rest ih =>
    cases ev with
    | timerFired =>
      constructor
      · intro hmem
        have hr : SelectEvent.ctxDone ∈ rest := by simpa using hmem
        show (match run rest with
          | .pending n => RunState.pending (n + 1)
          | .returned e n => .returned e (n + 1)) = _
        rw [ih.1 hr]
        rfl
      · intro hmem
        have hr : SelectEvent.ctxDone ∉ rest :=
          fun h => hmem (List.mem_cons_of_mem _ h)
        show (match run rest with
          | .pending n => RunState.pending (n + 1)
          | .returned e n => .returned e (n + 1)) = _
        rw [ih.2 hr]
        rfl
    | ctxDone =>
      constructor
      · intro _; rfl
      · intro h; exact absurd (List.mem_cons_self _ _) h

theorem C9_run_cancels_cleanly_witness :
    run [SelectEvent.timerFired, SelectEvent.ctxDone, SelectEvent.timerFired] =
      .returned none 1 := by
  have h := (C9_run_cancels_cleanly
    [SelectEvent.timerFired, SelectEvent.ctxDone, SelectEvent.timerFired]).1
    (by decide)
  rw [h]
  rfl

theorem getTotalNumUEs_eq_zero (st : State) (h : ∀ p ∈ st.numUEs, p.2 = 0) :
    getTotalNumUEs st = 0 := by
  have aux : ∀ (l : List (IDs × Int)) (a : Int), (∀ p ∈ l, p.2 = 0) →
      l.foldl (fun acc e => acc + e.2) a = a := by
    intro l
    induction l with
    | nil => intro a _; rfl
    | cons p rest ih =>
      intro a hz
      have h2 : p.2 = 0 := hz p (List.mem_cons_self _ _)
      rw [List.foldl_cons, h2, add_zero]
      exact ih a (fun q hq => hz q (List.mem_cons_of_mem _ hq))
  exact aux st.numUEs 0 h

theorem numUE_head_cell (st : State) (c0 : IDs) (n0 : Int)
    (rest : List (IDs × Int)) (hue : st.numUEs = (c0, n0) :: rest) :
    numUE st c0.plmnID c0.cellID (getCellList st) = .ok n0 := by
  unfold numUE findIDWithCGI getCellList
  rw [hue, List.map_cons, List.find?_cons_of_pos _ (by simp)]
  simp [lookupMap]

theorem controlLogicEachCell_capCalls_head (cfg : Config) (st : State)
    (ids : IDs) (cells : List IDs) (totalNumUEs : Int) (nl : List IDs) (k : Int)
    (hnb : lookupMap st.neighbors ids = some nl)
    (hnum : numUE st ids.plmnID ids.cellID cells = .ok k) :
    (totalNumUEs, k) ∈ (controlLogicEachCell cfg st ids cells totalNumUEs).capCalls := by
  simp only [controlLogicEachCell, hnb, hnum]
  split
  · exact List.mem_cons_self _ _
  · split
    · exact List.mem_cons_self _ _
    · exact List.mem_cons_self _ _

theorem mem_controlLoopCells_head (cfg : Config) (st : State) (cells : List IDs)
    (total : Int) (c0 : IDs) (cs : List IDs) (x : Int × Int)
    (hx : x ∈ (controlLogicEachCell cfg st c0 cells total).capCalls) :
    x ∈ (controlLoopCells cfg st cells total (c0 :: cs)).capCalls := by
  simp only [controlLoopCells]
  split
  · exact hx
  · exact List.mem_append_left _ hx

/-- C10: in any tick state whose UE-count store is nonempty with all counts
zero (and whose first cell has a neighbor list, so the decision is
reached), the total UE count is 0 and the per-cell decision invokes
getCapacity with totalNumUEs = 0, i.e. with a zero denominator; nothing on
the path guards the division. -/
theorem C10_div_by_zero_unguarded (cfg : Config) (st : State) (c0 : IDs)
    (n0 : Int) (rest : List (IDs × Int)) (nl : List IDs)
    (hue : st.numUEs = (c0, n0) :: rest)
    (hzero : ∀ p ∈ st.numUEs, p.2 = 0)
    (hnb : lookupMap st.neighbors c0 = some nl) :
    getTotalNumUEs st = 0 ∧
    ((0 : Int), (0 : Int)) ∈ (startControlLogic cfg st).capCalls := by
  have htot : getTotalNumUEs st = 0 := getTotalNumUEs_eq_zero st hzero
  have hn0 : n0 = 0 := hzero (c0, n0) (by rw [hue]; exact List.mem_cons_self _ _)
  refine ⟨htot, ?_⟩
  have hue1 : (updateOcnStore st).numUEs = (c0, n0) :: rest := hue
  have htot1 : getTotalNumUEs (updateOcnStore st) = 0 := htot
  have hnum : numUE (updateOcnStore st) c0.plmnID c0.cellID
      (getCellList (updateOcnStore st)) = .ok n0 :=
    numUE_head_cell _ _ _ _ hue1
  have hnb1 : lookupMap (updateOcnStore st).neighbors c0 = some nl := hnb
  have hcells : getCellList (updateOcnStore st) = c0 :: rest.map Prod.fst := by
    show (updateOcnStore st).numUEs.map Prod.fst = _
    rw [hue1, List.map_cons]
  have hhead : ((0 : Int), (0 : Int)) ∈ (controlLogicEachCell cfg (updateOcnStore st) c0
      (getCellList (updateOcnStore st)) 0).capCalls := by
    have h := controlLogicEachCell_capCalls_head cfg (updateOcnStore st) c0
      (getCellList (updateOcnStore st)) 0 nl n0 hnb1 hnum
    rwa [hn0] at h
  show ((0 : Int), (0 : Int)) ∈ (controlLoopCells cfg (updateOcnStore st)
      (getCellList (updateOcnStore st)) (getTotalNumUEs (updateOcnStore st))
      (getCellList (updateOcnStore st))).capCalls
  rw [htot1, hcells]
  refine mem_controlLoopCells_head _ _ _ _ _ _ _ ?_
  rw [← hcells]
  exact hhead

theorem C10_div_by_zero_unguarded_witness :
    getTotalNumUEs ⟨[(cellA, 0)], [(cellA, [])], []⟩ = 0 ∧
    ((0 : Int), (0 : Int)) ∈
      (startControlLogic cfgMid ⟨[(cellA, 0)], [(cellA, [])], []⟩).capCalls :=
  C10_div_by_zero_unguarded cfgMid ⟨[(cellA, 0)], [(cellA, [])], []⟩ cellA 0 [] []
    rfl (by decide) (by decide)

end OnosMlb
